import Mathlib

/-!
# Verification of the fileUpload client/server pair

Shallow embedding of the streaming file-upload tool:
* `server.mjs` — the Express receive endpoint (`safeBasename`, the
  `POST /upload` validation phase),
* `upload.mjs` — the client (`counter` transform, the rate-estimator tick,
  `etaSec`, `makeBar`, the bar-width fit, `writeStatusLine`, `formatHMS`).

JavaScript strings are modelled as Lean `String`s (`List Char` internally),
JavaScript numbers as `ℚ` (exact arithmetic in place of IEEE doubles; the
quantities involved — byte counts, millisecond timestamps, the EMA weight
1/5 — are modelled exactly), and `Infinity` / `NaN` by explicit constructors
where the code can meet them.
-/

/-! ## Server: `safeBasename` and the `/upload` validation phase -/

/-- Whitespace characters recognised by JavaScript `String.prototype.trim`
(ASCII whitespace plus the common Unicode space characters). -/
def isJsWhitespace (c : Char) : Bool :=
  c = ' ' || c = '\t' || c = '\n' || c = '\r' ||
  c = Char.ofNat 11 || c = Char.ofNat 12 ||
  c = Char.ofNat 0xa0 || c = Char.ofNat 0xfeff ||
  c = Char.ofNat 0x2028 || c = Char.ofNat 0x2029

/-- JavaScript `String.prototype.trim`: strip leading and trailing
whitespace. -/
def jsTrim (s : List Char) : List Char :=
  ((s.dropWhile isJsWhitespace).reverse.dropWhile isJsWhitespace).reverse

/-- Node's POSIX `path.basename` (no extension argument): drop trailing
slashes, then keep the final slash-separated segment.  Embeds the loop in
Node's `path.posix.basename` (skip trailing `/`; `end = -1` means return
`""`; otherwise slice from the character after the previous `/`). -/
def basenameChars (s : List Char) : List Char :=
  ((s.reverse.dropWhile (fun c => c == '/')).takeWhile (fun c => c != '/')).reverse

/-- `server.mjs` `safeBasename`: `path.basename(String(name))` (the argument
is always a string here, so `String(name)` is the identity). -/
def safeBasename (name : String) : String :=
  String.mk (basenameChars name.data)

/-- The value Express exposes as `req.query.fileName`: absent, a plain
string, or a non-string (array/object from repeated or bracketed query
parameters). -/
inductive QueryValue where
  | missing
  | str (s : String)
  | nonString
deriving DecidableEq

/-- Body of the server's `res.status(400).send(...)` for a missing/falsy or
non-string `fileName`. -/
def missingFileNameMsg : String := "Missing required query param \"fileName\""

/-- Body of the server's `res.status(400).send(...)` when sanitization
yields an empty name. -/
def invalidFileNameMsg : String := "Invalid \"fileName\""

/-- Outcome of the validation phase of the `POST /upload` handler
(`server.mjs` lines 27–41): either an early `return res.status(400)` —
taken *before* `ensureOutputDir()` runs and before any write stream is
opened — or passing validation, after which the handler ensures the output
directory and opens a truncating write stream at `output/<fileName>`. -/
inductive HandlerAction where
  | respond400 (message : String)
  | openWrite (fileName : String)
deriving DecidableEq

/-- The `POST /upload` validation phase.  Mirrors:
`if (!rawName || typeof rawName !== "string" || !rawName.trim()) return 400;
 const fileName = safeBasename(rawName.trim());
 if (!fileName) return 400;`
(`undefined` and `""` are the falsy cases of `!rawName`; a non-string query
value is truthy but fails the `typeof` test; `!rawName.trim()` holds exactly
when the trimmed string is empty). -/
def uploadValidation (rawName : QueryValue) : HandlerAction :=
  match rawName with
  | .missing => .respond400 missingFileNameMsg
  | .nonString => .respond400 missingFileNameMsg
  | .str s =>
    if s.data = [] ∨ jsTrim s.data = [] then .respond400 missingFileNameMsg
    else if (safeBasename (String.mk (jsTrim s.data))).data = [] then
      .respond400 invalidFileNameMsg
    else .openWrite (safeBasename (String.mk (jsTrim s.data)))

/-- `ensureOutputDir()` runs only after validation passes. -/
def HandlerAction.ensuresOutputDir : HandlerAction → Bool
  | .respond400 _ => false
  | .openWrite _ => true

/-- The file (under `output/`) the handler opens a write stream for, if
any. -/
def HandlerAction.opensWriteStream : HandlerAction → Option String
  | .respond400 _ => none
  | .openWrite n => some n

/-- The HTTP status sent synchronously by the validation phase (`some 400`
on rejection; `none` when the handler proceeds to streaming, whose status
is decided later by the stream events). -/
def HandlerAction.immediateStatus : HandlerAction → Option Nat
  | .respond400 _ => some 400
  | .openWrite _ => none

/-- Does the string contain a path separator? -/
def hasPathSeparator (s : String) : Prop := '/' ∈ s.data

instance (s : String) : Decidable (hasPathSeparator s) := by
  unfold hasPathSeparator
  infer_instance

/-- Split on `/` (every maximal slash-free run, keeping empty segments). -/
def splitOnSlash : List Char → List (List Char)
  | [] => [[]]
  | c :: cs =>
    if c == '/' then [] :: splitOnSlash cs
    else
      match splitOnSlash cs with
      | [] => [[c]]
      | seg :: rest => (c :: seg) :: rest

/-- Does the string contain a parent-directory (`..`) segment? -/
def hasParentSegment (s : String) : Prop :=
  ['.', '.'] ∈ splitOnSlash s.data

instance (s : String) : Decidable (hasParentSegment s) := by
  unfold hasParentSegment
  infer_instance

/-! ### Helper lemmas about `basenameChars` -/

theorem ne_slash_of_mem_takeWhile :
    ∀ (l : List Char) (c : Char),
      c ∈ l.takeWhile (fun x => x != '/') → (c != '/') = true
  | [], c, h => absurd h (by simp)
  | a :: as, c, h => by
    rw [List.takeWhile_cons] at h
    by_cases ha : (a != '/') = true
    · rw [if_pos ha] at h
      rcases List.mem_cons.mp h with rfl | h2
      · exact ha
      · exact ne_slash_of_mem_takeWhile as c h2
    · rw [if_neg ha] at h
      exact absurd h (List.not_mem_nil c)

theorem basenameChars_no_slash (l : List Char) : ¬ '/' ∈ basenameChars l := by
  intro h
  unfold basenameChars at h
  rw [List.mem_reverse] at h
  have := ne_slash_of_mem_takeWhile _ _ h
  simp at this

theorem splitOnSlash_no_slash (l : List Char) (h : ¬ '/' ∈ l) :
    splitOnSlash l = [l] := by
  induction l with
  | nil => rfl
  | cons c cs ih =>
    have hc : ¬ c == '/' := by
      simp only [List.mem_cons] at h
      simp only [beq_iff_eq]
      exact fun e => h (Or.inl e.symm)
    have hcs : ¬ '/' ∈ cs := fun m => h (List.mem_cons_of_mem _ m)
    unfold splitOnSlash
    rw [if_neg hc, ih hcs]

theorem hasParentSegment_of_no_slash (s : String) (h : ¬ '/' ∈ s.data) :
    hasParentSegment s ↔ s.data = ['.', '.'] := by
  unfold hasParentSegment
  rw [splitOnSlash_no_slash s.data h]
  simp [eq_comm]

/-! ### Claims about the receive endpoint -/

/-- C1 counterexample.  The claim asserts the sanitized name never contains
a parent-directory segment and is always exactly `basename(requested)`.
Both halves fail on the code: the request `fileName=".."` passes validation
and the server proceeds to write under the sanitized name `".."`, which is
itself a parent-directory segment; and for `fileName=" abc "` the sanitized
name is `"abc"`, which differs from `basename(" abc ")` (the code takes the
basename of the *trimmed* value). -/
theorem c1_sanitize_counterexample :
    uploadValidation (.str "..") = .openWrite ".." ∧ hasParentSegment ".." ∧
    uploadValidation (.str " abc ") = .openWrite "abc" ∧
    safeBasename " abc " ≠ "abc" := by decide

/-- C1 (amended): whenever the `/upload` validation phase accepts a request
and proceeds to write, the name it writes under is exactly
`basename(trim(requestedFileName))` and never contains a path separator; it
can contain a parent-directory segment only in the single degenerate case
where the whole sanitized name is the literal `".."`.  The example values
`"../../etc/passwd"` and `"a/b/c.bin"` sanitize to `"passwd"` and `"c.bin"`
respectively. -/
theorem c1_sanitized_name_amended :
    (∀ s n, uploadValidation (.str s) = .openWrite n →
        n = safeBasename (String.mk (jsTrim s.data)) ∧
        ¬ hasPathSeparator n ∧
        (hasParentSegment n → n = "..")) ∧
    uploadValidation (.str "../../etc/passwd") = .openWrite "passwd" ∧
    uploadValidation (.str "a/b/c.bin") = .openWrite "c.bin" := by
  refine ⟨?_, by decide, by decide⟩
  intro s n h
  simp only [uploadValidation] at h
  split at h
  · exact absurd h (by simp)
  · split at h
    · exact absurd h (by simp)
    · have hn : n = safeBasename (String.mk (jsTrim s.data)) := by
        cases h
        rfl
      have hns : ¬ '/' ∈ n.data := by
        rw [hn]
        exact basenameChars_no_slash _
      refine ⟨hn, hns, ?_⟩
      intro hp
      have := (hasParentSegment_of_no_slash n hns).mp hp
      exact String.ext this

/-- C1 amended, instantiated at the request `fileName="../../etc/passwd"`. -/
theorem c1_sanitized_name_amended_witness :
    "passwd" = safeBasename (String.mk (jsTrim ("../../etc/passwd" : String).data)) ∧
    ¬ hasPathSeparator "passwd" ∧
    (hasParentSegment "passwd" → "passwd" = "..") :=
  c1_sanitized_name_amended.1 "../../etc/passwd" "passwd" (by decide)

/-- C2: if `fileName` is absent, not a string, or empty/whitespace-only
after trimming, the handler responds HTTP 400 with the explanatory
missing-parameter message; if a present `fileName` sanitizes to the empty
string the handler responds HTTP 400 with the invalid-name message.  In
every 400 case the handler returns before `ensureOutputDir()` and before
any write stream is opened: no file is created and the output directory is
not touched. -/
theorem c2_validation_rejects :
    uploadValidation .missing = .respond400 missingFileNameMsg ∧
    uploadValidation .nonString = .respond400 missingFileNameMsg ∧
    (∀ s, jsTrim s.data = [] → uploadValidation (.str s) = .respond400 missingFileNameMsg) ∧
    (∀ s, jsTrim s.data ≠ [] → basenameChars (jsTrim s.data) = [] →
        uploadValidation (.str s) = .respond400 invalidFileNameMsg) ∧
    (∀ m, (HandlerAction.respond400 m).ensuresOutputDir = false ∧
        (HandlerAction.respond400 m).opensWriteStream = none ∧
        (HandlerAction.respond400 m).immediateStatus = some 400) := by
  refine ⟨rfl, rfl, ?_, ?_, fun m => ⟨rfl, rfl, rfl⟩⟩
  · intro s h
    simp only [uploadValidation]
    rw [if_pos (Or.inr h)]
  · intro s h1 h2
    simp only [uploadValidation]
    rw [if_neg,
      if_pos (show (safeBasename (String.mk (jsTrim s.data))).data = [] from h2)]
    rintro (h | h)
    · rw [h] at h1
      exact h1 rfl
    · exact h1 h

/-- C2, instantiated at the whitespace-only value `"  "`, the empty value
`""`, the absent parameter, and the value `"/"` whose basename is empty. -/
theorem c2_validation_rejects_witness :
    uploadValidation (.str "  ") = .respond400 missingFileNameMsg ∧
    uploadValidation (.str "") = .respond400 missingFileNameMsg ∧
    uploadValidation .missing = .respond400 missingFileNameMsg ∧
    uploadValidation (.str "/") = .respond400 invalidFileNameMsg :=
  ⟨c2_validation_rejects.2.2.1 "  " (by decide),
   c2_validation_rejects.2.2.1 "" (by decide),
   c2_validation_rejects.1,
   c2_validation_rejects.2.2.2.1 "/" (by decide) (by decide)⟩

/-! ## Client: the counting stream wrapper (`upload.mjs` `counter`) -/

/-- A stream chunk: a buffer, i.e. a finite sequence of bytes. -/
abbrev Chunk := List Nat

/-- The `counter` transform stream:
`transform(chunk, _enc, cb) { uploadedBytes += chunk.length; cb(null, chunk); }`
Run over a finite chunk sequence, threading the `uploadedBytes` counter:
returns the final counter value and the forwarded output chunks in order. -/
def counterTransform (uploadedBytes : Nat) : List Chunk → Nat × List Chunk
  | [] => (uploadedBytes, [])
  | c :: cs =>
    let after := uploadedBytes + c.length
    let rest := counterTransform after cs
    (rest.1, c :: rest.2)

/-- The value of `uploadedBytes` observed immediately after each chunk is
processed. -/
def counterTrace (uploadedBytes : Nat) : List Chunk → List Nat
  | [] => []
  | c :: cs => (uploadedBytes + c.length) :: counterTrace (uploadedBytes + c.length) cs

theorem counterTransform_eq (acc : Nat) (chunks : List Chunk) :
    counterTransform acc chunks = (acc + (chunks.map List.length).sum, chunks) := by
  induction chunks generalizing acc with
  | nil => simp [counterTransform]
  | cons c cs ih => simp [counterTransform, ih, Nat.add_assoc]

theorem counterTrace_get (acc : Nat) (chunks : List Chunk) (k : Nat)
    (hk : k < chunks.length) :
    (counterTrace acc chunks).get? k =
      some (acc + ((chunks.take (k + 1)).map List.length).sum) := by
  induction chunks generalizing acc k with
  | nil => simp at hk
  | cons c cs ih =>
    cases k with
    | zero => simp [counterTrace]
    | succ k =>
      simp only [counterTrace, List.get?_cons_succ, List.take_succ_cons,
        List.map_cons, List.sum_cons]
      rw [ih (acc + c.length) k (by simpa using hk)]
      simp [Nat.add_assoc]

theorem counterTrace_chain (acc : Nat) (chunks : List Chunk) :
    List.Chain' (· ≤ ·) (acc :: counterTrace acc chunks) := by
  induction chunks generalizing acc with
  | nil => simp [counterTrace]
  | cons c cs ih =>
    simp only [counterTrace]
    exact List.Chain'.cons (Nat.le_add_right _ _) (ih (acc + c.length))

/-- C3: the counting stream wrapper forwards exactly the input chunks, in
order, unmodified; after the k-th chunk the counter equals the sum of the
byte lengths of the first k chunks (so it is non-decreasing), and at
completion it equals the total byte count N. -/
theorem c3_counter_passthrough :
    (∀ chunks : List Chunk, (counterTransform 0 chunks).2 = chunks) ∧
    (∀ chunks : List Chunk,
        (counterTransform 0 chunks).1 = (chunks.map List.length).sum) ∧
    (∀ chunks : List Chunk, ∀ k, k < chunks.length →
        (counterTrace 0 chunks).get? k =
          some (((chunks.take (k + 1)).map List.length).sum)) ∧
    (∀ chunks : List Chunk, List.Chain' (· ≤ ·) (0 :: counterTrace 0 chunks)) := by
  refine ⟨?_, ?_, ?_, ?_⟩
  · intro chunks
    rw [counterTransform_eq]
  · intro chunks
    rw [counterTransform_eq]
    simp
  · intro chunks k hk
    rw [counterTrace_get 0 chunks k hk]
    simp
  · intro chunks
    exact counterTrace_chain 0 chunks

/-- C3, instantiated at the chunk sequence `[[7, 7], [9], [1, 2, 3]]`
(lengths 2, 1, 3 summing to 6). -/
theorem c3_counter_passthrough_witness :
    (counterTransform 0 [[7, 7], [9], [1, 2, 3]]).2 = [[7, 7], [9], [1, 2, 3]] ∧
    (counterTransform 0 [[7, 7], [9], [1, 2, 3]]).1 = 6 ∧
    (counterTrace 0 [[7, 7], [9], [1, 2, 3]]).get? 1 = some 3 :=
  ⟨c3_counter_passthrough.1 _,
   c3_counter_passthrough.2.1 _,
   c3_counter_passthrough.2.2.1 [[7, 7], [9], [1, 2, 3]] 1 (by decide)⟩

/-! ## Client: the rate estimator (`upload.mjs` ticker, lines 223–236) -/

/-- `SPEED_ALPHA = 0.2`, the EMA smoothing factor. -/
def SPEED_ALPHA : ℚ := 1 / 5

/-- The estimator's mutable state across ticks: `lastBytes`, `lastTime`
(milliseconds) and `emaBytesPerSec` (initially `0, Date.now(), 0`). -/
structure EstimatorState where
  lastBytes : ℚ
  lastTime : ℚ
  emaBytesPerSec : ℚ
deriving DecidableEq

/-- One tick of the `setInterval` callback, restricted to the estimator
part:
`const dt = (now - lastTime) / 1000;
 if (dt > 0) {
   const inst = (uploadedBytes - lastBytes) / dt;
   if (emaBytesPerSec === 0) emaBytesPerSec = inst;
   else emaBytesPerSec = SPEED_ALPHA * inst + (1 - SPEED_ALPHA) * emaBytesPerSec;
   lastBytes = uploadedBytes; lastTime = now;
 }` -/
def tick (st : EstimatorState) (uploadedBytes now : ℚ) : EstimatorState :=
  let dt := (now - st.lastTime) / 1000
  if 0 < dt then
    let inst := (uploadedBytes - st.lastBytes) / dt
    let ema :=
      if st.emaBytesPerSec = 0 then inst
      else SPEED_ALPHA * inst + (1 - SPEED_ALPHA) * st.emaBytesPerSec
    { lastBytes := uploadedBytes, lastTime := now, emaBytesPerSec := ema }
  else st

/-- A whole run of ticks over a list of `(uploadedBytes, now)` samples. -/
def runTicks (st : EstimatorState) : List (ℚ × ℚ) → EstimatorState
  | [] => st
  | (u, t) :: rest => runTicks (tick st u t) rest

/-- The byte counts of a sample list are non-decreasing, starting from a
given lower bound (the counter only ever grows). -/
def monotoneSamples (lo : ℚ) : List (ℚ × ℚ) → Prop
  | [] => True
  | (u, _) :: rest => lo ≤ u ∧ monotoneSamples u rest


/-! ### Equation lemmas for `tick` -/

theorem tick_skip (st : EstimatorState) (u t : ℚ)
    (h : ¬ 0 < (t - st.lastTime) / 1000) : tick st u t = st := by
  simp only [tick]
  rw [if_neg h]

theorem tick_seed (st : EstimatorState) (u t : ℚ)
    (h : 0 < (t - st.lastTime) / 1000) (h0 : st.emaBytesPerSec = 0) :
    tick st u t = ⟨u, t, (u - st.lastBytes) / ((t - st.lastTime) / 1000)⟩ := by
  simp only [tick]
  rw [if_pos h, if_pos h0]

theorem tick_blend (st : EstimatorState) (u t : ℚ)
    (h : 0 < (t - st.lastTime) / 1000) (h0 : st.emaBytesPerSec ≠ 0) :
    tick st u t = ⟨u, t,
      SPEED_ALPHA * ((u - st.lastBytes) / ((t - st.lastTime) / 1000)) +
        (1 - SPEED_ALPHA) * st.emaBytesPerSec⟩ := by
  simp only [tick]
  rw [if_pos h, if_neg h0]

theorem tick_ema_nonneg (st : EstimatorState) (u t : ℚ)
    (hema : 0 ≤ st.emaBytesPerSec) (hu : st.lastBytes ≤ u) :
    0 ≤ (tick st u t).emaBytesPerSec := by
  by_cases hdt : 0 < (t - st.lastTime) / 1000
  · have hinst : 0 ≤ (u - st.lastBytes) / ((t - st.lastTime) / 1000) :=
      div_nonneg (by linarith) hdt.le
    by_cases h0 : st.emaBytesPerSec = 0
    · rw [tick_seed st u t hdt h0]
      exact hinst
    · rw [tick_blend st u t hdt h0]
      show 0 ≤ SPEED_ALPHA * _ + (1 - SPEED_ALPHA) * st.emaBytesPerSec
      have ha : (0 : ℚ) ≤ SPEED_ALPHA := by norm_num [SPEED_ALPHA]
      have hb : (0 : ℚ) ≤ 1 - SPEED_ALPHA := by norm_num [SPEED_ALPHA]
      have := mul_nonneg ha hinst
      have := mul_nonneg hb hema
      linarith
  · rw [tick_skip st u t hdt]
    exact hema

theorem tick_ema_pos (st : EstimatorState) (u t : ℚ)
    (hema : 0 < st.emaBytesPerSec) (hu : st.lastBytes ≤ u) :
    0 < (tick st u t).emaBytesPerSec := by
  by_cases hdt : 0 < (t - st.lastTime) / 1000
  · have hinst : 0 ≤ (u - st.lastBytes) / ((t - st.lastTime) / 1000) :=
      div_nonneg (by linarith) hdt.le
    rw [tick_blend st u t hdt (ne_of_gt hema)]
    show 0 < SPEED_ALPHA * _ + (1 - SPEED_ALPHA) * st.emaBytesPerSec
    have ha : (0 : ℚ) ≤ SPEED_ALPHA := by norm_num [SPEED_ALPHA]
    have hb : (0 : ℚ) < 1 - SPEED_ALPHA := by norm_num [SPEED_ALPHA]
    have := mul_nonneg ha hinst
    have := mul_pos hb hema
    linarith
  · rw [tick_skip st u t hdt]
    exact hema

theorem tick_lastBytes_le (st : EstimatorState) (u t : ℚ)
    (hu : st.lastBytes ≤ u) : (tick st u t).lastBytes ≤ u := by
  by_cases hdt : 0 < (t - st.lastTime) / 1000
  · simp only [tick]
    rw [if_pos hdt]
  · rw [tick_skip st u t hdt]
    exact hu

theorem monotoneSamples_weaken {lo lo' : ℚ} (h : lo' ≤ lo) :
    ∀ {l : List (ℚ × ℚ)}, monotoneSamples lo l → monotoneSamples lo' l
  | [], _ => trivial
  | (_, _) :: _, hm => ⟨le_trans h hm.1, hm.2⟩

theorem runTicks_ema_pos : ∀ (samples : List (ℚ × ℚ)) (st : EstimatorState),
    monotoneSamples st.lastBytes samples → 0 < st.emaBytesPerSec →
    0 < (runTicks st samples).emaBytesPerSec
  | [], _, _, h => h
  | (u, t) :: rest, st, hm, h => by
    have hpos := tick_ema_pos st u t h hm.1
    have hlb := tick_lastBytes_le st u t hm.1
    exact runTicks_ema_pos rest (tick st u t)
      (monotoneSamples_weaken hlb hm.2) hpos

/-! ### Claims about the rate estimator -/

/-- C4 counterexample.  The claim says the smoothed rate is seeded on the
very first valid sample and *blended* on every later valid sample.  On the
code, a first valid sample with zero instantaneous rate seeds
`emaBytesPerSec = 0`, and the *second* valid sample (instantaneous rate 5)
then re-seeds to 5 instead of blending to
`SPEED_ALPHA*5 + (1-SPEED_ALPHA)*0 = 1`. -/
theorem c4_seed_counterexample :
    (tick ⟨0, 0, 0⟩ 0 1000).emaBytesPerSec = 0 ∧
    (tick ⟨0, 0, 0⟩ 0 1000).lastTime = 1000 ∧
    (tick (tick ⟨0, 0, 0⟩ 0 1000) 5 2000).emaBytesPerSec = 5 ∧
    SPEED_ALPHA * 5 + (1 - SPEED_ALPHA) * (tick ⟨0, 0, 0⟩ 0 1000).emaBytesPerSec ≠ 5 := by
  norm_num [tick, SPEED_ALPHA]

/-- C4 (amended): on every tick, if the time delta is zero or negative the
whole rate update (including the sample bookkeeping) is skipped; on a valid
tick the instantaneous rate is `(uploadedBytes − lastBytes)` divided by the
delta in seconds, and the smoothed rate is seeded to it directly (no
blending) whenever the current smoothed value is exactly 0 — i.e. until the
first non-zero instantaneous rate — and otherwise updated as
`smoothed = alpha*instantaneous + (1 − alpha)*smoothed` with
`alpha = SPEED_ALPHA = 0.2`. -/
theorem c4_tick_update_amended :
    (∀ st u t, ¬ 0 < (t - st.lastTime) / 1000 → tick st u t = st) ∧
    (∀ st u t, 0 < (t - st.lastTime) / 1000 → st.emaBytesPerSec = 0 →
        tick st u t = ⟨u, t, (u - st.lastBytes) / ((t - st.lastTime) / 1000)⟩) ∧
    (∀ st u t, 0 < (t - st.lastTime) / 1000 → st.emaBytesPerSec ≠ 0 →
        tick st u t = ⟨u, t,
          SPEED_ALPHA * ((u - st.lastBytes) / ((t - st.lastTime) / 1000)) +
            (1 - SPEED_ALPHA) * st.emaBytesPerSec⟩) ∧
    SPEED_ALPHA = 1 / 5 :=
  ⟨tick_skip, tick_seed, tick_blend, rfl⟩

/-- C4 amended, instantiated: a zero/negative time delta skips the update;
a valid tick from a non-zero smoothed rate blends with weight 1/5. -/
theorem c4_tick_update_amended_witness :
    tick ⟨3, 500, 7⟩ 9 500 = ⟨3, 500, 7⟩ ∧
    tick ⟨0, 0, 4⟩ 2 1000 = ⟨2, 1000,
      SPEED_ALPHA * ((2 - 0) / ((1000 - 0) / 1000)) + (1 - SPEED_ALPHA) * 4⟩ := by
  constructor
  · exact c4_tick_update_amended.1 ⟨3, 500, 7⟩ 9 500 (by norm_num)
  · have := c4_tick_update_amended.2.2.1 ⟨0, 0, 4⟩ 2 1000 (by norm_num) (by norm_num)
    simpa using this

/-- C5: once the smoothed rate is seeded (non-zero), a valid tick at a
sustained constant instantaneous rate `R > 0` shrinks the distance to `R`
by exactly the factor `(1 − alpha)`:
`|smoothed' − R| = (1 − alpha)·|smoothed − R|`. -/
theorem c5_geometric_convergence (st : EstimatorState) (R : ℚ)
    (hseed : st.emaBytesPerSec ≠ 0) (_hR : 0 < R) :
    |(tick st (st.lastBytes + R) (st.lastTime + 1000)).emaBytesPerSec - R| =
      (1 - SPEED_ALPHA) * |st.emaBytesPerSec - R| := by
  have hdt : 0 < (st.lastTime + 1000 - st.lastTime) / 1000 := by
    have : st.lastTime + 1000 - st.lastTime = (1000 : ℚ) := by ring
    rw [this]
    norm_num
  rw [tick_blend st _ _ hdt hseed]
  show |SPEED_ALPHA * ((st.lastBytes + R - st.lastBytes) /
      ((st.lastTime + 1000 - st.lastTime) / 1000)) +
      (1 - SPEED_ALPHA) * st.emaBytesPerSec - R| = _
  have h1 : st.lastBytes + R - st.lastBytes = R := by ring
  have h2 : st.lastTime + 1000 - st.lastTime = (1000 : ℚ) := by ring
  rw [h1, h2]
  norm_num
  have h3 : SPEED_ALPHA * R + (1 - SPEED_ALPHA) * st.emaBytesPerSec - R =
      (1 - SPEED_ALPHA) * (st.emaBytesPerSec - R) := by ring
  rw [h3, abs_mul, abs_of_nonneg (by norm_num [SPEED_ALPHA] : (0:ℚ) ≤ 1 - SPEED_ALPHA)]

/-- C5, instantiated at smoothed rate 2, constant instantaneous rate 1. -/
theorem c5_geometric_convergence_witness :
    |(tick ⟨0, 0, 2⟩ ((⟨0, 0, 2⟩ : EstimatorState).lastBytes + 1)
        ((⟨0, 0, 2⟩ : EstimatorState).lastTime + 1000)).emaBytesPerSec - 1| =
      (1 - SPEED_ALPHA) * |(⟨0, 0, 2⟩ : EstimatorState).emaBytesPerSec - 1| :=
  c5_geometric_convergence ⟨0, 0, 2⟩ 1 (by norm_num) (by norm_num)

/-- C10: given a non-decreasing byte counter, every tick preserves
non-negativity of the smoothed rate; once the smoothed rate is strictly
positive it stays strictly positive across any run of ticks whose samples
are non-decreasing; consequently a tick that starts from a positive
smoothed rate always takes the blend branch — the re-seed condition
(`emaBytesPerSec === 0`) can only trigger before the first non-zero
instantaneous rate, never after. -/
theorem c10_ema_sign_invariants :
    (∀ st u t, 0 ≤ st.emaBytesPerSec → st.lastBytes ≤ u →
        0 ≤ (tick st u t).emaBytesPerSec) ∧
    (∀ st u t, 0 < st.emaBytesPerSec → st.lastBytes ≤ u →
        0 < (tick st u t).emaBytesPerSec) ∧
    (∀ st samples, monotoneSamples st.lastBytes samples →
        0 < st.emaBytesPerSec → 0 < (runTicks st samples).emaBytesPerSec) ∧
    (∀ st u t, 0 < st.emaBytesPerSec → 0 < (t - st.lastTime) / 1000 →
        (tick st u t).emaBytesPerSec =
          SPEED_ALPHA * ((u - st.lastBytes) / ((t - st.lastTime) / 1000)) +
            (1 - SPEED_ALPHA) * st.emaBytesPerSec) := by
  refine ⟨tick_ema_nonneg, tick_ema_pos,
    fun st samples hm h => runTicks_ema_pos samples st hm h, ?_⟩
  intro st u t h0 hdt
  rw [tick_blend st u t hdt (ne_of_gt h0)]

/-- C10, instantiated at a two-sample monotone run starting from smoothed
rate 1. -/
theorem c10_ema_sign_invariants_witness :
    0 < (runTicks ⟨0, 0, 1⟩ [(2, 1000), (2, 1100)]).emaBytesPerSec :=
  c10_ema_sign_invariants.2.2.1 ⟨0, 0, 1⟩ [(2, 1000), (2, 1100)]
    ⟨by norm_num, by norm_num, trivial⟩ (by norm_num)

/-! ## Client: ETA (`upload.mjs` lines 247–248) -/

/-- `const remainingBytes = Math.max(0, totalBytes - uploadedBytes);` -/
def remainingBytes (totalBytes uploadedBytes : ℚ) : ℚ :=
  max 0 (totalBytes - uploadedBytes)

/-- `const etaSec = emaBytesPerSec > 1 ? remainingBytes / emaBytesPerSec
: Infinity;` — `⊤` models `Infinity`. -/
def etaSec (totalBytes uploadedBytes ema : ℚ) : WithTop ℚ :=
  if 1 < ema then ((remainingBytes totalBytes uploadedBytes / ema : ℚ) : WithTop ℚ)
  else ⊤

/-- C6: when the smoothed rate exceeds the 1 byte/sec noise floor the ETA
is `(totalBytes − uploadedBytes) / smoothed`; at or below the floor it is
reported as unbounded (`Infinity`); and for a fixed total, a non-negative
constant rate and a non-decreasing `done` counter the ETA is monotonically
non-increasing. -/
theorem c6_eta_formula :
    (∀ T u r, 1 < r → u ≤ T → etaSec T u r = (((T - u) / r : ℚ) : WithTop ℚ)) ∧
    (∀ T u r, r ≤ 1 → etaSec T u r = ⊤) ∧
    (∀ T r d1 d2, 0 ≤ r → d1 ≤ d2 → etaSec T d2 r ≤ etaSec T d1 r) := by
  refine ⟨?_, ?_, ?_⟩
  · intro T u r h1 h2
    unfold etaSec remainingBytes
    rw [if_pos h1, max_eq_right (by linarith)]
  · intro T u r h
    unfold etaSec
    rw [if_neg (not_lt.mpr h)]
  · intro T r d1 d2 _ h
    unfold etaSec remainingBytes
    by_cases hr : 1 < r
    · rw [if_pos hr, if_pos hr]
      exact WithTop.coe_le_coe.mpr
        (div_le_div_of_nonneg_right
          (max_le_max le_rfl (sub_le_sub_left h T)) (by linarith))
    · rw [if_neg hr, if_neg hr]

/-- C6, instantiated: total 10, done 4, rate 2 gives ETA 3 seconds; rate
1/2 is below the noise floor; at rate 3 the ETA at done 7 is at most the
ETA at done 4. -/
theorem c6_eta_formula_witness :
    etaSec 10 4 2 = (((10 - 4) / 2 : ℚ) : WithTop ℚ) ∧
    etaSec 10 4 (1 / 2) = ⊤ ∧
    etaSec 10 7 3 ≤ etaSec 10 4 3 :=
  ⟨c6_eta_formula.1 10 4 2 (by norm_num) (by norm_num),
   c6_eta_formula.2.1 10 4 (1 / 2) (by norm_num),
   c6_eta_formula.2.2 10 3 4 7 (by norm_num) (by norm_num)⟩

/-! ## Client: the progress renderer (`upload.mjs` `makeBar`,
`writeStatusLine`, and the bar-width fit in the ticker) -/

/-- `BAR_WIDTH = 30`, the maximum bar width. -/
def BAR_WIDTH : Nat := 30

/-- JavaScript `Math.round` (round half toward positive infinity). -/
def jsRound (q : ℚ) : ℤ := ⌊q + 1 / 2⌋

/-- `const progress01 = totalBytes > 0 ? uploadedBytes / totalBytes : 1;` -/
def progress01 (totalBytes uploadedBytes : ℚ) : ℚ :=
  if 0 < totalBytes then uploadedBytes / totalBytes else 1

/-- The bar's filled character `"█"`. -/
def filledChar : Char := '█'

/-- The bar's empty character `"░"`. -/
def emptyChar : Char := '░'

/-- `makeBar(progress01, width)`:
`const clamped = Math.max(0, Math.min(1, progress01));
 const filled = Math.round(clamped * width);
 const empty = width - filled;
 return "[" + filledChar.repeat(filled) + emptyChar.repeat(empty) + "]";`
(`filled ≤ width` always holds — proved below — so the `Nat` subtraction
agrees with the JavaScript one). -/
def makeBar (p : ℚ) (width : Nat) : String :=
  let clamped := max 0 (min 1 p)
  let filled := (jsRound (clamped * width)).toNat
  let empty := width - filled
  String.mk ('[' :: (List.replicate filled filledChar ++
    List.replicate empty emptyChar ++ [']']))

/-- The shorthand for `makeBar`'s filled count. -/
def filledCount (p : ℚ) (width : Nat) : Nat :=
  (jsRound (max 0 (min 1 p) * width)).toNat

/-- Bar width chosen by the ticker:
`const cols = process.stdout.isTTY ? (process.stdout.columns || 0) : 0;
 let barWidth = BAR_WIDTH;
 if (cols > 0) {
   const maxBarWidth = cols - suffix.length - 3;
   barWidth = Math.max(5, Math.min(BAR_WIDTH, maxBarWidth));
 }`
(`maxBarWidth` can be negative, hence the computation is over `ℤ`; the
result is at least 5, so `toNat` is exact). -/
def barWidthFor (cols suffixLen : Nat) : Nat :=
  if 0 < cols then
    (max 5 (min (BAR_WIDTH : ℤ) ((cols : ℤ) - suffixLen - 3))).toNat
  else BAR_WIDTH

/-- The full status line handed to `writeStatusLine` by the ticker:
`` `${bar} ${suffix}` ``. -/
def renderStatusLine (cols : Nat) (suffix : String) (p : ℚ) : String :=
  makeBar p (barWidthFor cols suffix.length) ++ " " ++ suffix

/-- The truncation step of `writeStatusLine` (TTY path):
`if (cols > 0 && out.length > cols - 1) out = out.slice(0, cols - 1);` -/
def truncateToCols (cols : Nat) (line : String) : String :=
  if 0 < cols ∧ cols - 1 < line.length then String.mk (line.data.take (cols - 1))
  else line

/-- `writeStatusLine` (TTY path): truncate, pad with spaces to cover the
remnants of a longer previous render, and return what is written after
`"\r\x1b[2K"` together with the new `lastRenderedLen`. -/
def writeStatusLine (cols lastRenderedLen : Nat) (line : String) :
    String × Nat :=
  let out := truncateToCols cols line
  (out ++ String.mk (List.replicate (lastRenderedLen - out.length) ' '),
    out.length)

/-! ### Helper lemmas for the renderer -/

theorem filledCount_le (p : ℚ) (width : Nat) : filledCount p width ≤ width := by
  unfold filledCount jsRound
  have h1 : max 0 (min 1 p) ≤ 1 := max_le (by norm_num) (min_le_left 1 p)
  have h2 : max 0 (min 1 p) * width ≤ width := by
    calc max 0 (min 1 p) * width ≤ 1 * width := by
          exact mul_le_mul_of_nonneg_right h1 (by positivity)
      _ = width := one_mul _
  have h3 : ⌊max 0 (min 1 p) * width + 1 / 2⌋ ≤ ⌊(width : ℚ) + 1 / 2⌋ :=
    Int.floor_le_floor (by linarith)
  have h4 : ⌊(width : ℚ) + 1 / 2⌋ = width := by
    rw [show ((width : ℚ) + 1 / 2) = (width : ℤ) + (1 / 2 : ℚ) by push_cast; ring,
      Int.floor_int_add]
    norm_num
  omega

theorem makeBar_length (p : ℚ) (width : Nat) :
    (makeBar p width).length = width + 2 := by
  unfold makeBar
  show ('[' :: (List.replicate (filledCount p width) filledChar ++
    List.replicate (width - filledCount p width) emptyChar ++ [']'])).length = width + 2
  have := filledCount_le p width
  simp [List.length_append, List.length_replicate]
  omega

theorem barWidthFor_ge (cols suffixLen : Nat) (h : 0 < cols) :
    5 ≤ barWidthFor cols suffixLen := by
  unfold barWidthFor
  rw [if_pos h]
  omega

theorem truncateToCols_length (cols : Nat) (line : String) (h : 0 < cols) :
    (truncateToCols cols line).length ≤ cols := by
  unfold truncateToCols
  split
  · rename_i hc
    show (line.data.take (cols - 1)).length ≤ cols
    rw [List.length_take]
    omega
  · rename_i hc
    rw [not_and_or] at hc
    rcases hc with hc | hc
    · exact absurd h hc
    · rw [not_lt] at hc
      show line.length ≤ cols
      omega

/-! ### Claims about the renderer -/

/-- C7: on an interactive terminal with any positive column count, for
every suffix and every progress fraction, (a) the bar width is at least the
floor of 5; (b) whenever the terminal is wide enough that the shrink rule
can fit the line (`cols ≥ suffix.length + 8`), the un-truncated line
`bar ++ " " ++ suffix` already fits in `cols` columns; and (c) the line as
written (after `writeStatusLine`'s truncation) never exceeds `cols`. -/
theorem c7_line_fits (cols : Nat) (suffix : String) (p : ℚ) (h : 0 < cols) :
    5 ≤ barWidthFor cols suffix.length ∧
    (suffix.length + 8 ≤ cols → (renderStatusLine cols suffix p).length ≤ cols) ∧
    (truncateToCols cols (renderStatusLine cols suffix p)).length ≤ cols := by
  refine ⟨barWidthFor_ge cols suffix.length h, ?_, truncateToCols_length cols _ h⟩
  intro hwide
  unfold renderStatusLine
  rw [String.length_append, String.length_append, makeBar_length]
  have hbw : barWidthFor cols suffix.length ≤ cols - suffix.length - 3 := by
    unfold barWidthFor
    rw [if_pos h]
    omega
  have hs : (" " : String).length = 1 := rfl
  rw [hs]
  omega

/-- C7, instantiated at a 40-column terminal, a 50-character suffix (the
bar floor plus truncation case) — the written line still fits. -/
theorem c7_line_fits_witness :
    5 ≤ barWidthFor 40 (String.mk (List.replicate 50 'x')).length ∧
    ((String.mk (List.replicate 50 'x')).length + 8 ≤ 40 →
      (renderStatusLine 40 (String.mk (List.replicate 50 'x')) (1 / 2)).length ≤ 40) ∧
    (truncateToCols 40
      (renderStatusLine 40 (String.mk (List.replicate 50 'x')) (1 / 2))).length ≤ 40 :=
  c7_line_fits 40 (String.mk (List.replicate 50 'x')) (1 / 2) (by norm_num)

/-- C8: for every bar width and progress fraction, the rendered bar has
exactly `round(clamp(f,0,1)·w)` filled characters and `w − round(...)`
empty characters; and the ticker's progress fraction is
`uploadedBytes / totalBytes` for positive totals and 1 when the total is
zero. -/
theorem c8_bar_composition :
    (∀ p w, ((makeBar p w).data.count filledChar = filledCount p w ∧
        (makeBar p w).data.count emptyChar = w - filledCount p w)) ∧
    (∀ T u, 0 < T → progress01 T u = u / T) ∧
    (∀ u, progress01 0 u = 1) := by
  refine ⟨?_, ?_, ?_⟩
  · intro p w
    have hdata : (makeBar p w).data =
        '[' :: (List.replicate (filledCount p w) filledChar ++
          List.replicate (w - filledCount p w) emptyChar ++ [']']) := rfl
    rw [hdata]
    constructor
    · rw [List.count_cons, List.count_append, List.count_append,
        List.count_replicate, List.count_replicate]
      simp [filledChar, emptyChar]
    · rw [List.count_cons, List.count_append, List.count_append,
        List.count_replicate, List.count_replicate]
      simp [filledChar, emptyChar]
  · intro T u h
    unfold progress01
    rw [if_pos h]
  · intro u
    unfold progress01
    rw [if_neg (by norm_num)]

/-- C8, instantiated at fraction 1/2 and width 4 (2 filled, 2 empty), and
at totals 10 and 0. -/
theorem c8_bar_composition_witness :
    (makeBar (1 / 2) 4).data.count filledChar = filledCount (1 / 2) 4 ∧
    (makeBar (1 / 2) 4).data.count emptyChar = 4 - filledCount (1 / 2) 4 ∧
    progress01 10 5 = 5 / 10 ∧
    progress01 0 5 = 1 :=
  ⟨(c8_bar_composition.1 (1 / 2) 4).1,
   (c8_bar_composition.1 (1 / 2) 4).2,
   c8_bar_composition.2.1 10 5 (by norm_num),
   c8_bar_composition.2.2 5⟩

/-! ## Client: `formatHMS` (`upload.mjs` lines 89–101) -/

/-- A JavaScript number argument as `formatHMS` can receive it: either
non-finite (`NaN`, `Infinity`, `-Infinity` — the ticker passes `Infinity`
when the rate is at the noise floor) or a finite value. -/
inductive JsNumber where
  | notFinite
  | finite (q : ℚ)

/-- `String(n).padStart(2, "0")` for a non-negative integer `n`. -/
def padStart2Zero (s : String) : String :=
  if s.length < 2 then String.mk (List.replicate (2 - s.length) '0') ++ s
  else s

/-- `formatHMS(totalSeconds)`:
`if (!Number.isFinite(t) || t < 0) t = 0;
 const s = Math.floor(t);
 hours = Math.floor(s / 3600); minutes = Math.floor((s % 3600) / 60);
 seconds = s % 60;` then each is rendered via `String(...).padStart(2,"0")`
and joined with `":"`.  (`s` is a non-negative integer, so the inner
`Math.floor`s and `%` agree with `Nat` division and remainder.) -/
def formatHMS (totalSeconds : JsNumber) : String :=
  let t : ℚ :=
    match totalSeconds with
    | .notFinite => 0
    | .finite q => if q < 0 then 0 else q
  let s : Nat := (⌊t⌋).toNat
  let hours := s / 3600
  let minutes := (s % 3600) / 60
  let seconds := s % 60
  padStart2Zero (toString hours) ++ ":" ++ padStart2Zero (toString minutes)
    ++ ":" ++ padStart2Zero (toString seconds)

theorem formatHMS_finite_nonneg (q : ℚ) (h : 0 ≤ q) :
    formatHMS (.finite q) =
      padStart2Zero (toString ((⌊q⌋).toNat / 3600)) ++ ":" ++
        padStart2Zero (toString ((⌊q⌋).toNat % 3600 / 60)) ++ ":" ++
        padStart2Zero (toString ((⌊q⌋).toNat % 60)) := by
  simp only [formatHMS]
  rw [if_neg (not_lt.mpr h)]

/-- C9: `formatHMS` sends 0 to `"00:00:00"`, 3661 to `"01:01:01"`, any
negative and any non-finite input to `"00:00:00"`; and every finite
non-negative input is floored to whole seconds and rendered as zero-padded
hours, minutes and seconds joined by colons. -/
theorem c9_formatHMS_spec :
    formatHMS (.finite 0) = "00:00:00" ∧
    formatHMS (.finite 3661) = "01:01:01" ∧
    (∀ q, q < 0 → formatHMS (.finite q) = "00:00:00") ∧
    formatHMS .notFinite = "00:00:00" ∧
    (∀ q, 0 ≤ q → formatHMS (.finite q) = formatHMS (.finite ⌊q⌋)) ∧
    (∀ q, 0 ≤ q → formatHMS (.finite q) =
      padStart2Zero (toString ((⌊q⌋).toNat / 3600)) ++ ":" ++
        padStart2Zero (toString ((⌊q⌋).toNat % 3600 / 60)) ++ ":" ++
        padStart2Zero (toString ((⌊q⌋).toNat % 60))) := by
  have hneg : ∀ q : ℚ, q < 0 → formatHMS (.finite q) = "00:00:00" := by
    intro q h
    simp only [formatHMS]
    rw [if_pos h]
    rfl
  refine ⟨?_, ?_, hneg, rfl, ?_, formatHMS_finite_nonneg⟩
  · rw [formatHMS_finite_nonneg 0 le_rfl]
    norm_num
    rfl
  · rw [formatHMS_finite_nonneg 3661 (by norm_num)]
    have : ⌊(3661 : ℚ)⌋ = 3661 := by norm_num
    rw [this]
    rfl
  · intro q h
    rw [formatHMS_finite_nonneg q h,
      formatHMS_finite_nonneg (⌊q⌋ : ℚ) (by exact_mod_cast Int.floor_nonneg.mpr h),
      Int.floor_intCast]

/-- C9, instantiated: a negative input renders as `"00:00:00"`, and 90.5
seconds is floored to 90 and rendered `"00:01:30"`. -/
theorem c9_formatHMS_spec_witness :
    formatHMS (.finite (-7)) = "00:00:00" ∧
    formatHMS (.finite (181 / 2)) = formatHMS (.finite ⌊(181 / 2 : ℚ)⌋) :=
  ⟨c9_formatHMS_spec.2.2.1 (-7) (by norm_num),
   c9_formatHMS_spec.2.2.2.2.1 (181 / 2) (by norm_num)⟩
